import Mathlib

/-!
Verification of the code-matching and price-extraction core of
`app.py` (Proto Catalogue Builder).

The Python source is shallowly embedded below:

* `normalize_code`            embeds `normalize_code` (app.py:24),
  `re.sub(r"[^0-9]", "", str(code))` — keep only ASCII digits.
* `extract_photo_norm_code`   embeds `extract_photo_norm_code` (app.py:29):
  stem of the filename (`os.path.splitext`), truncated at the first
  hyphen, then normalized.
* `flush_block` / `extract_prices_from_pdf` embed the block-based PDF
  price extraction (app.py:47-155).  The extractor is modelled as a
  function over the list of text lines of the document (the Python code
  obtains these lines from pdfplumber; the core logic consumes them
  line by line).
* `match_photos_to_prices` / `matchRow` embed the matcher
  (app.py:161-203).  The Python `price_map` dict (built by a dict
  comprehension, so a later binding overwrites an earlier one) is
  modelled by an association list with last-binding-wins lookup
  (`dictGet`).

Python regexes used by the source are embedded as decidable character
list predicates; each is derived for its concrete pattern (the patterns
involve no genuine backtracking because `\d`, `\s`, `.`-literal and the
letter classes are pairwise disjoint, so greedy maximal runs are the
only viable parses).

Strings are modelled by Lean `String` (a list of characters); Python
floats produced by `float(...)` on a `\d+\.\d+` token are modelled as
exact rationals (`ratOfDec`), which is faithful for everything proved
here since no claim depends on binary rounding.
-/

/-- Python whitespace as used by `str.strip` / `\s` on the ASCII inputs
of this program: space, tab, newline, carriage return, vertical tab,
form feed. -/
def isSpaceChar (c : Char) : Bool :=
  c == ' ' || c == '\t' || c == '\n' || c == '\r' || c == '\x0b' || c == '\x0c'

/-- ASCII letter, the class `[A-Za-z]`. -/
def isAsciiLetter (c : Char) : Bool :=
  ('A' ≤ c && c ≤ 'Z') || ('a' ≤ c && c ≤ 'z')

/-- ASCII upper-case letter, the class `[A-Z]`. -/
def isUpperChar (c : Char) : Bool :=
  'A' ≤ c && c ≤ 'Z'

/-- Word character, the class `\w` = `[A-Za-z0-9_]` (for `\b`). -/
def isWordChar (c : Char) : Bool :=
  isAsciiLetter c || c.isDigit || c == '_'

/-- Strip leading and trailing whitespace from a character list
(Python `str.strip()`). -/
def stripChars (l : List Char) : List Char :=
  ((l.dropWhile isSpaceChar).reverse.dropWhile isSpaceChar).reverse

/-- Python `s.strip()`. -/
def pyStrip (s : String) : String :=
  ⟨stripChars s.toList⟩

/-- Python `s.rstrip("\n")`: drop trailing newline characters. -/
def rstripNl (s : String) : String :=
  ⟨(s.toList.reverse.dropWhile (· == '\n')).reverse⟩

/-- `normalize_code` (app.py:24): `re.sub(r"[^0-9]", "", str(code))` —
keep only the ASCII digits of the code. -/
def normalize_code (code : String) : String :=
  ⟨code.toList.filter Char.isDigit⟩

/-- Index of the last occurrence of `c` in `l`, if any. -/
def lastIdxOf (c : Char) (l : List Char) : Option Nat :=
  match l.reverse.findIdx? (· == c) with
  | none => none
  | some j => some (l.length - 1 - j)

/-- The stem part of `os.path.splitext(filename)` for a plain file name
(no directory separators): split at the last dot, except that a name
whose characters before the last dot are all dots (e.g. `".bashrc"`)
has no extension. -/
def splitextStem (s : String) : String :=
  match lastIdxOf '.' s.toList with
  | none => s
  | some i =>
      if (s.toList.take i).all (fun x => x == '.') then s
      else ⟨s.toList.take i⟩

/-- Python `stem.split("-")[0]`: everything before the first hyphen. -/
def preHyphen (s : String) : String :=
  ⟨s.toList.takeWhile (fun c => c != '-')⟩

/-- `extract_photo_norm_code` (app.py:29): drop the extension, truncate
at the first `-`, keep only digits. -/
def extract_photo_norm_code (filename : String) : String :=
  normalize_code (preHyphen (splitextStem filename))

/-- Full match of `^\d+[A-Za-z]?$` (app.py:83): one or more digits,
optionally followed by a single letter. -/
def codeLineMatch (l : List Char) : Bool :=
  let ds := l.takeWhile Char.isDigit
  let rest := l.drop ds.length
  decide (0 < ds.length) &&
    (rest == [] || (rest.length == 1 && isAsciiLetter (rest.headD 'A')))

/-- Full match of `^\d{6,}[A-Za-z]?$` (app.py:142): six or more digits,
optionally followed by a single letter. -/
def blockStartMatch (l : List Char) : Bool :=
  let ds := l.takeWhile Char.isDigit
  let rest := l.drop ds.length
  decide (6 ≤ ds.length) &&
    (rest == [] || (rest.length == 1 && isAsciiLetter (rest.headD 'A')))

/-- Full match of `^[0-9]+\.[0-9]+(\s+[A-Z])?$` (app.py:103): a decimal
number, optionally followed by whitespace and a single capital. -/
def decFlagLineMatch (l : List Char) : Bool :=
  let d1 := l.takeWhile Char.isDigit
  let r1 := l.drop d1.length
  decide (0 < d1.length) &&
    match r1 with
    | '.' :: r2 =>
        let d2 := r2.takeWhile Char.isDigit
        let r3 := r2.drop d2.length
        decide (0 < d2.length) &&
          (r3 == [] ||
            (let sp := r3.takeWhile isSpaceChar
             let r4 := r3.drop sp.length
             decide (0 < sp.length) && r4.length == 1 && isUpperChar (r4.headD 'A')))
    | _ => false

/-- Full match of `^[0-9]+\s*$` (app.py:103): digits then optional
whitespace. -/
def numLineMatch (l : List Char) : Bool :=
  let d := l.takeWhile Char.isDigit
  let r := l.drop d.length
  decide (0 < d.length) && r.all isSpaceChar

/-- The condition ending the description scan (app.py:103): a
price-like line, a purely numeric line, or one of the flags
`"T"`, `"N"`, `"Y"`. -/
def descStopLine (s : String) : Bool :=
  decFlagLineMatch s.toList || numLineMatch s.toList ||
    s == "T" || s == "N" || s == "Y"

/-- Description collection loop (app.py:97-105): walk the lines after
the code line; blank lines (after stripping) are skipped, the first
stop line ends the scan, every other line contributes its stripped
text. -/
def descLines : List String → List String
  | [] => []
  | l :: ls =>
      let s := pyStrip l
      if s == "" then descLines ls
      else if descStopLine s then []
      else s :: descLines ls

/-- Match of `(\d+\.\d+)\s+T\b` anchored at the start of the character
list; returns the group `\d+\.\d+` on success.  The character classes
of consecutive pattern pieces are disjoint, so the greedy maximal-run
parse is the only possible one and no backtracking arises. -/
def matchTAt (l : List Char) : Option (List Char) :=
  let d1 := l.takeWhile Char.isDigit
  let r1 := l.drop d1.length
  if d1.length == 0 then none
  else
    match r1 with
    | '.' :: r2 =>
        let d2 := r2.takeWhile Char.isDigit
        let r3 := r2.drop d2.length
        if d2.length == 0 then none
        else
          let sp := r3.takeWhile isSpaceChar
          let r4 := r3.drop sp.length
          if sp.length == 0 then none
          else
            match r4 with
            | 'T' :: r5 =>
                if r5 == [] || !(isWordChar (r5.headD 'a')) then
                  some (d1 ++ '.' :: d2)
                else none
            | _ => none
    | _ => none

/-- `re.search(r"(\d+\.\d+)\s+T\b", s)` (app.py:113): leftmost match,
returning group 1. -/
def searchTChars : List Char → Option (List Char)
  | [] => none
  | c :: cs =>
      match matchTAt (c :: cs) with
      | some g => some g
      | none => searchTChars cs

/-- Numeric value of an ASCII digit list. -/
def natOfDigits (l : List Char) : Nat :=
  l.foldl (fun a c => a * 10 + (c.toNat - '0'.toNat)) 0

/-- Exact rational value of a `\d+\.\d+` token (models Python
`float(m.group(1))`, which never raises on this shape). -/
def ratOfDec (g : List Char) : ℚ :=
  let d1 := g.takeWhile Char.isDigit
  let d2 := g.drop (d1.length + 1)
  (natOfDigits d1 : ℚ) + (natOfDigits d2 : ℚ) / (10 ^ d2.length : ℚ)

/-- Price search loop (app.py:110-119): scan the block's lines in
order, strip each, and take the first `(\d+\.\d+)\s+T\b` match. -/
def priceScan : List String → Option ℚ
  | [] => none
  | l :: ls =>
      match searchTChars (pyStrip l).toList with
      | some g => some (ratOfDec g)
      | none => priceScan ls

/-- One catalog record as stored in the `items` dict (app.py:122-127). -/
structure PriceRecord where
  CODE : String
  NORM_CODE : String
  DESCRIPTION : String
  PRICE_INCL : Option ℚ
deriving DecidableEq, Repr

/-- `flush_block` (app.py:76-127): turn one block of lines into at most
one new `items` entry.  `items` is the insertion-ordered association
list modelling the Python dict. -/
def flush_block (items : List (String × PriceRecord)) (block_lines : List String) :
    List (String × PriceRecord) :=
  match block_lines with
  | [] => items
  | b0 :: rest =>
      let first := pyStrip b0
      if !(codeLineMatch first.toList) then items
      else
        let norm_code := normalize_code first
        if norm_code == "" then items
        else if (items.lookup norm_code).isSome then items
        else
          items ++ [(norm_code,
            { CODE := first
              NORM_CODE := norm_code
              DESCRIPTION := String.intercalate " " (descLines rest)
              PRICE_INCL := priceScan (b0 :: rest) })]

/-- Scanner state of the line loop of `extract_prices_from_pdf`
(app.py:129-152): the accumulated `items` and the `current_block`. -/
structure ScanState where
  items : List (String × PriceRecord)
  current : List String
deriving Repr

/-- One iteration of the line loop (app.py:137-149): a line matching
`^\d{6,}[A-Za-z]?$` (after stripping) flushes the current block and
starts a new one from the stripped line; any other line is appended to
the current block when one is open. -/
def scanLine (st : ScanState) (raw : String) : ScanState :=
  let line := rstripNl raw
  let stripped := pyStrip line
  if blockStartMatch stripped.toList then
    { items := flush_block st.items st.current, current := [stripped] }
  else if st.current != [] then
    { st with current := st.current ++ [line] }
  else st

/-- `extract_prices_from_pdf` (app.py:47-155) over the document's text
lines: run the scanner, flush the last block, and return the
insertion-ordered `items` association list (`norm_code ↦ record`). -/
def extract_prices_from_pdf (lines : List String) : List (String × PriceRecord) :=
  let st := lines.foldl scanLine { items := [], current := [] }
  flush_block st.items st.current

/-- Lookup in the `price_map` dict (app.py:168): the dict comprehension
lets a later binding of the same key overwrite an earlier one, so
lookup returns the last binding. -/
def dictGet (pm : List (String × PriceRecord)) (k : String) : Option PriceRecord :=
  (pm.reverse.find? (fun p => p.1 == k)).map Prod.snd

/-- Python `norm[:-t]` for `0 < t`: drop the last `t` characters. -/
def strDropLast (s : String) (t : Nat) : String :=
  ⟨s.toList.take (s.toList.length - t)⟩

/-- The trim loop of Stage 2 (app.py:178-184): for each trim count in
order, stop for good as soon as the remaining length would fall below
4, otherwise look up the trimmed code and stop at the first hit. -/
def tryTrims (pm : List (String × PriceRecord)) (norm : String) :
    List Nat → Option PriceRecord
  | [] => none
  | t :: ts =>
      if norm.length - t < 4 then none
      else
        match dictGet pm (strDropLast norm t) with
        | some r => some r
        | none => tryTrims pm norm ts

/-- The matched row of one photo (app.py:172-184): exact lookup of the
extracted code, then — only when that fails and the code is non-empty —
the trim loop with trims 1, 2, 3. -/
def matchedRecord (pm : List (String × PriceRecord)) (fname : String) :
    Option PriceRecord :=
  let norm := extract_photo_norm_code fname
  match dictGet pm norm with
  | some r => some r
  | none => if norm != "" then tryTrims pm norm [1, 2, 3] else none

/-- One output row of the matcher (app.py:186-201). -/
structure MatchRow where
  PHOTO : String
  CODE : String
  DESCRIPTION : String
  PRICE_INCL : Option ℚ
  FILENAME : String
deriving DecidableEq, Repr

/-- Build the output row for one photo (app.py:186-201): a matched
photo carries the record's raw CODE, DESCRIPTION and PRICE_INCL; an
unmatched photo carries the extracted code, an empty description and a
null price. -/
def matchRow (pm : List (String × PriceRecord)) (fname : String) : MatchRow :=
  match matchedRecord pm fname with
  | some r =>
      { PHOTO := fname, CODE := r.CODE, DESCRIPTION := r.DESCRIPTION
        PRICE_INCL := r.PRICE_INCL, FILENAME := fname }
  | none =>
      { PHOTO := fname, CODE := extract_photo_norm_code fname, DESCRIPTION := ""
        PRICE_INCL := none, FILENAME := fname }

/-- `match_photos_to_prices` (app.py:161-203): one row per photo, in
input order. -/
def match_photos_to_prices (pm : List (String × PriceRecord))
    (photo_names : List String) : List MatchRow :=
  photo_names.map (matchRow pm)

/-- The trimmed codes Stage 2 actually attempts, in order: trims 1, 2,
3, cut off at the first trim that would leave fewer than 4 characters. -/
def trimTries (norm : String) : List String :=
  (([1, 2, 3] : List Nat).takeWhile (fun t => !(decide (norm.length - t < 4)))).map
    (fun t => strDropLast norm t)

/-- First successful lookup among a list of candidate codes. -/
def lookupFirst (pm : List (String × PriceRecord)) : List String → Option PriceRecord
  | [] => none
  | c :: cs =>
      match dictGet pm c with
      | some r => some r
      | none => lookupFirst pm cs

/-- Structural helper for whitespace tokenization: `cur` is the
reversed current token. -/
def wordsAux (cur : List Char) : List Char → List (List Char)
  | [] => if cur == [] then [] else [cur.reverse]
  | c :: cs =>
      if isSpaceChar c then
        if cur == [] then wordsAux [] cs else cur.reverse :: wordsAux [] cs
      else wordsAux (c :: cur) cs

/-- Whitespace-delimited tokens of a character list (spec-side notion,
for the positional price rule of the spec). -/
def splitWords (l : List Char) : List (List Char) :=
  wordsAux [] l

/-- Full match of the decimal-number token pattern `^\d+\.\d+$`
(spec-side notion). -/
def isDecTok (l : List Char) : Bool :=
  let d1 := l.takeWhile Char.isDigit
  decide (0 < d1.length) &&
    match l.drop d1.length with
    | '.' :: r2 => decide (0 < r2.length) && r2.all Char.isDigit
    | _ => false

/-- Modelled from the spec: all decimal-number tokens of a logical
block, in order (the spec's positional price rule selects the 5th of
these, 0-indexed position 4). -/
def specDecTokens (block : List String) : List (List Char) :=
  ((block.map (fun s => splitWords s.toList)).flatten).filter isDecTok

/-- Modelled from the spec: the price the spec's positional rule
assigns to a block — the decimal-number token at 0-indexed position 4. -/
def specPricePosition5 (block : List String) : Option ℚ :=
  ((specDecTokens block)[4]?).map ratOfDec

/-- Structural helper collecting maximal digit runs: `run` is the
reversed current digit run. -/
def digitRunsAux (run : List Char) : List Char → List (List Char)
  | [] => if run == [] then [] else [run.reverse]
  | c :: cs =>
      if c.isDigit then digitRunsAux (c :: run) cs
      else if run == [] then digitRunsAux [] cs
      else run.reverse :: digitRunsAux [] cs

/-- The maximal runs of consecutive decimal digits of a character
list, in order. -/
def digitRuns (l : List Char) : List (List Char) :=
  digitRunsAux [] l

/-! ## Helper lemmas -/

/-- Appending a fresh key to the association list makes it visible to
lookup. -/
theorem lookup_append_single (l : List (String × PriceRecord)) (k : String)
    (r : PriceRecord) (h : l.lookup k = none) :
    (l ++ [(k, r)]).lookup k = some r := by
  induction l with
  | nil => simp [List.lookup]
  | cons p t ih =>
      cases hk : (k == p.1) with
      | true =>
          exfalso
          cases p with
          | mk k1 v => simp [List.lookup, hk] at h
      | false =>
          cases p with
          | mk k1 v =>
              simp only [List.lookup, hk] at h ⊢
              exact ih h

/-- A key that lookup does not find is not among the stored keys. -/
theorem lookup_none_not_mem (l : List (String × PriceRecord)) (k : String)
    (h : l.lookup k = none) : k ∉ l.map Prod.fst := by
  induction l with
  | nil => simp
  | cons p t ih =>
      cases p with
      | mk k1 v =>
          cases hk : (k == k1) with
          | true => simp [List.lookup, hk] at h
          | false =>
              simp only [List.lookup, hk] at h
              simp only [List.map_cons, List.mem_cons]
              rintro (rfl | hm)
              · simp at hk
              · exact ih h hm

/-- The trim loop on the literal trim list `[1, 2, 3]` looks up exactly
the candidates of `trimTries`, in order, and stops at the first hit. -/
theorem tryTrims_eq_lookupFirst (pm : List (String × PriceRecord)) (norm : String) :
    tryTrims pm norm [1, 2, 3] = lookupFirst pm (trimTries norm) := by
  by_cases h1 : norm.length - 1 < 4
  · have h2 : norm.length - 2 < 4 := by omega
    simp [tryTrims, trimTries, lookupFirst, h1, h2]
  · by_cases h2 : norm.length - 2 < 4
    · cases hd1 : dictGet pm (strDropLast norm 1) with
      | some r => simp [tryTrims, trimTries, lookupFirst, h1, h2, hd1]
      | none => simp [tryTrims, trimTries, lookupFirst, h1, h2, hd1]
    · have h1' : ¬ (norm.length - 1 < 4) := by omega
      by_cases h3 : norm.length - 3 < 4
      · cases hd1 : dictGet pm (strDropLast norm 1) with
        | some r => simp [tryTrims, trimTries, lookupFirst, h1, h2, h3, hd1]
        | none =>
            cases hd2 : dictGet pm (strDropLast norm 2) with
            | some r => simp [tryTrims, trimTries, lookupFirst, h1, h2, h3, hd1, hd2]
            | none => simp [tryTrims, trimTries, lookupFirst, h1, h2, h3, hd1, hd2]
      · cases hd1 : dictGet pm (strDropLast norm 1) with
        | some r => simp [tryTrims, trimTries, lookupFirst, h1, h2, h3, hd1]
        | none =>
            cases hd2 : dictGet pm (strDropLast norm 2) with
            | some r => simp [tryTrims, trimTries, lookupFirst, h1, h2, h3, hd1, hd2]
            | none =>
                cases hd3 : dictGet pm (strDropLast norm 3) with
                | some r => simp [tryTrims, trimTries, lookupFirst, h1, h2, h3, hd1, hd2, hd3]
                | none => simp [tryTrims, trimTries, lookupFirst, h1, h2, h3, hd1, hd2, hd3]

/-- String concatenation concatenates the character data. -/
theorem stringAppendData (a b : String) : (a ++ b).data = a.data ++ b.data :=
  rfl

/-- Flattening the digit runs collected by the helper recovers the
accumulator followed by the digits of the remaining input. -/
theorem digitRunsAux_flatten (l : List Char) :
    ∀ run : List Char, (digitRunsAux run l).flatten =
      run.reverse ++ l.filter Char.isDigit := by
  induction l with
  | nil =>
      intro run
      cases hr : (run == []) with
      | true =>
          have : run = [] := by simpa using hr
          simp [digitRunsAux, hr, this]
      | false => simp [digitRunsAux, hr]
  | cons c cs ih =>
      intro run
      by_cases hd : c.isDigit
      · simp [digitRunsAux, hd, ih (c :: run), List.filter_cons]
      · have hd' : Char.isDigit c = false := by simpa using hd
        cases hr : (run == []) with
        | true =>
            have hrr : run = [] := by simpa using hr
            simp [digitRunsAux, hd', hr, hrr, ih [], List.filter_cons]
        | false =>
            simp [digitRunsAux, hd', hr, ih [], List.filter_cons]

/-- Flattening the maximal digit runs of a character list gives exactly
its digits, in order. -/
theorem digitRuns_flatten (l : List Char) :
    (digitRuns l).flatten = l.filter Char.isDigit := by
  simpa using digitRunsAux_flatten l []

/-! ## Claim theorems -/

/-- Claim C1: for every photo whose extracted code is present verbatim
as a key of the catalog mapping, the matcher returns that catalog
record as the match, regardless of any other candidate; the trim
fallback is never consulted. -/
theorem C1_exact_match_wins (pm : List (String × PriceRecord)) (f : String)
    (r : PriceRecord) (h : dictGet pm (extract_photo_norm_code f) = some r) :
    matchRow pm f =
      { PHOTO := f, CODE := r.CODE, DESCRIPTION := r.DESCRIPTION,
        PRICE_INCL := r.PRICE_INCL, FILENAME := f } := by
  simp [matchRow, matchedRecord, h]

/-- Witness for C1 at a concrete catalog and filename. -/
theorem C1_exact_match_wins_witness :
    dictGet [("123456", (⟨"123456", "123456", "D", none⟩ : PriceRecord))]
        (extract_photo_norm_code "123456.jpg") =
      some (⟨"123456", "123456", "D", none⟩ : PriceRecord) ∧
    matchRow [("123456", (⟨"123456", "123456", "D", none⟩ : PriceRecord))] "123456.jpg" =
      { PHOTO := "123456.jpg", CODE := "123456", DESCRIPTION := "D",
        PRICE_INCL := none, FILENAME := "123456.jpg" } :=
  ⟨by decide,
    C1_exact_match_wins [("123456", (⟨"123456", "123456", "D", none⟩ : PriceRecord))]
      "123456.jpg" (⟨"123456", "123456", "D", none⟩ : PriceRecord) (by decide)⟩

/-- Claim C8: the matcher yields exactly one row per photo, in input
order, and the row of a photo depends only on that photo's filename and
the catalog — not on the surrounding batch. -/
theorem C8_one_row_per_photo_in_order (pm : List (String × PriceRecord))
    (fs fs1 fs2 : List String) (f : String) :
    (match_photos_to_prices pm fs).length = fs.length ∧
    match_photos_to_prices pm (fs1 ++ f :: fs2) =
      match_photos_to_prices pm fs1 ++
        matchRow pm f :: match_photos_to_prices pm fs2 := by
  constructor
  · simp [match_photos_to_prices]
  · simp [match_photos_to_prices]

/-- Claim C10: a photo matched by no stage yields a row carrying the
extracted normalized code itself, an empty description and a null
price. -/
theorem C10_unmatched_row (pm : List (String × PriceRecord)) (f : String)
    (h : matchedRecord pm f = none) :
    matchRow pm f =
      { PHOTO := f, CODE := extract_photo_norm_code f, DESCRIPTION := "",
        PRICE_INCL := none, FILENAME := f } := by
  simp [matchRow, h]

/-- Witness for C10: a filename with no digits at all matches nothing
and its row carries the empty extracted code. -/
theorem C10_unmatched_row_witness :
    matchedRecord [] "photo.jpg" = none ∧
    extract_photo_norm_code "photo.jpg" = "" ∧
    matchRow [] "photo.jpg" =
      { PHOTO := "photo.jpg", CODE := extract_photo_norm_code "photo.jpg",
        DESCRIPTION := "", PRICE_INCL := none, FILENAME := "photo.jpg" } :=
  ⟨by decide, by decide, C10_unmatched_row [] "photo.jpg" (by decide)⟩

/-- Counterexample for C7: `normalize_code` does not strip a trailing
`".0"` before removing non-digits — `"8610.0"` normalizes to `"86100"`,
not `"8610"`. -/
theorem C7_counterexample :
    normalize_code "8610.0" = "86100" ∧ normalize_code "8610.0" ≠ "8610" := by
  exact ⟨by decide, by decide⟩

/-- Claim C7 (amended): normalization removes all non-digit characters
with no special-casing of a trailing `".0"`: the dot is dropped and the
zero kept, for every raw code. -/
theorem C7_trailing_dot_zero (s : String) :
    normalize_code (s ++ ".0") = normalize_code s ++ "0" := by
  apply String.ext
  show ((s ++ ".0").data.filter Char.isDigit) = _
  rw [stringAppendData, List.filter_append, stringAppendData]
  rfl

/-- Counterexample for C4: the extracted code is not the leading digit
run of the pre-hyphen prefix — a filename stem `"12a34"` yields
`"1234"`, not `"12"`. -/
theorem C4_counterexample :
    extract_photo_norm_code "12a34.jpg" = "1234" ∧
    extract_photo_norm_code "12a34.jpg" ≠ "12" := by
  exact ⟨by decide, by decide⟩

/-- Claim C4 (amended): the extracted code is obtained by dropping the
extension, truncating at the first hyphen, and concatenating ALL the
maximal digit runs of that prefix (not just the leading run). -/
theorem C4_concatenated_digit_runs (fname : String) :
    (extract_photo_norm_code fname).data =
      (digitRuns (preHyphen (splitextStem fname)).data).flatten := by
  rw [digitRuns_flatten]
  rfl

/-- Claim C2: when the exact lookup fails (and the extracted code is
non-empty), Stage 2 looks up exactly the candidates of `trimTries` —
trims 1, 2, 3 in that order, cut off before any trim leaving fewer than
4 digits — and the first hit wins; for a 5-character extracted code the
only candidate is the 1-digit trim. -/
theorem C2_trim_stage (pm : List (String × PriceRecord)) (f : String)
    (hex : dictGet pm (extract_photo_norm_code f) = none)
    (hne : extract_photo_norm_code f ≠ "") :
    matchedRecord pm f = lookupFirst pm (trimTries (extract_photo_norm_code f)) ∧
    ((extract_photo_norm_code f).length = 5 →
      trimTries (extract_photo_norm_code f) =
        [strDropLast (extract_photo_norm_code f) 1]) := by
  constructor
  · simp only [matchedRecord, hex]
    rw [if_pos (by simpa using hne)]
    exact tryTrims_eq_lookupFirst pm (extract_photo_norm_code f)
  · intro h5
    simp [trimTries, h5]

/-- Witness for C2: a 5-character extracted code against a 4-digit
catalog entry — only the 1-digit trim is tried and it hits. -/
theorem C2_trim_stage_witness :
    dictGet [("1234", (⟨"1234", "1234", "D", none⟩ : PriceRecord))]
        (extract_photo_norm_code "12345.jpg") = none ∧
    extract_photo_norm_code "12345.jpg" ≠ "" ∧
    (matchedRecord [("1234", (⟨"1234", "1234", "D", none⟩ : PriceRecord))] "12345.jpg" =
        lookupFirst [("1234", (⟨"1234", "1234", "D", none⟩ : PriceRecord))]
          (trimTries (extract_photo_norm_code "12345.jpg")) ∧
      ((extract_photo_norm_code "12345.jpg").length = 5 →
        trimTries (extract_photo_norm_code "12345.jpg") =
          [strDropLast (extract_photo_norm_code "12345.jpg") 1])) :=
  ⟨by decide, by decide,
    C2_trim_stage [("1234", (⟨"1234", "1234", "D", none⟩ : PriceRecord))]
      "12345.jpg" (by decide) (by decide)⟩

/-- A line passing the code-line test has a digit as first character,
so its digit filtrate is non-empty. -/
theorem codeLine_norm_ne (l : List Char) (hc : codeLineMatch l = true) :
    l.filter Char.isDigit ≠ [] := by
  cases l with
  | nil => simp [codeLineMatch] at hc
  | cons c cs =>
      simp only [codeLineMatch, Bool.and_eq_true, decide_eq_true_eq] at hc
      have hlen := hc.1
      by_cases hd : c.isDigit
      · simp [List.filter_cons, hd]
      · have hd' : Char.isDigit c = false := by simpa using hd
        simp [List.takeWhile_cons, hd'] at hlen

/-- Unfolding `flush_block` on a fresh, valid block: the new record is
stored under its normalized code. -/
theorem flush_block_adds (items : List (String × PriceRecord)) (b0 : String)
    (rest : List String)
    (hc : codeLineMatch (pyStrip b0).toList = true)
    (hl : (items.lookup (normalize_code (pyStrip b0))).isSome = false) :
    (flush_block items (b0 :: rest)).lookup (normalize_code (pyStrip b0)) =
      some { CODE := pyStrip b0, NORM_CODE := normalize_code (pyStrip b0),
             DESCRIPTION := String.intercalate " " (descLines rest),
             PRICE_INCL := priceScan (b0 :: rest) } := by
  have hnorm : normalize_code (pyStrip b0) ≠ "" := by
    intro he
    apply codeLine_norm_ne (pyStrip b0).toList hc
    have := congrArg String.data he
    simpa [normalize_code] using this
  have hlook : items.lookup (normalize_code (pyStrip b0)) = none := by
    cases hx : items.lookup (normalize_code (pyStrip b0)) with
    | none => rfl
    | some v => rw [hx] at hl; simp at hl
  simp only [flush_block, hc, Bool.not_true, Bool.false_eq_true, if_false]
  rw [if_neg (by simpa using hnorm), if_neg (by simp [hl])]
  exact lookup_append_single items _ _ hlook

/-- The price loop returns the value of the first `T`-flagged decimal
token of the block, line by line. -/
theorem priceScan_eq_head (ls : List String) :
    priceScan ls =
      ((ls.filterMap (fun l => searchTChars (pyStrip l).toList)).head?).map ratOfDec := by
  induction ls with
  | nil => rfl
  | cons l ls ih =>
      simp only [priceScan, List.filterMap_cons]
      cases h : searchTChars (pyStrip l).toList with
      | none => simp only [h, ih]
      | some g => simp only [h, List.head?, Option.map]

/-- Counterexample for C5: in a block whose first `T`-flagged decimal
is not its 5th decimal-number token, the stored price is the former,
not the latter — the positional 5th-number rule does not describe the
code. -/
theorem C5_counterexample :
    (extract_prices_from_pdf
        ["861390012", "XX", "1.10 T", "2.20", "3.30", "4.40", "5.50"]).lookup "861390012" =
      some { CODE := "861390012", NORM_CODE := "861390012", DESCRIPTION := "XX",
             PRICE_INCL := some (ratOfDec "1.10".toList) } ∧
    specPricePosition5 ["861390012", "XX", "1.10 T", "2.20", "3.30", "4.40", "5.50"] =
      some (ratOfDec "5.50".toList) ∧
    ratOfDec "1.10".toList ≠ ratOfDec "5.50".toList := by
  refine ⟨rfl, rfl, ?_⟩
  have t1 : List.takeWhile Char.isDigit ['1', '.', '1', '0'] = ['1'] := by decide
  have t2 : List.takeWhile Char.isDigit ['5', '.', '5', '0'] = ['5'] := by decide
  have n1 : natOfDigits ['1'] = 1 := by decide
  have n2 : natOfDigits ['1', '0'] = 10 := by decide
  have n3 : natOfDigits ['5'] = 5 := by decide
  have n4 : natOfDigits ['5', '0'] = 50 := by decide
  simp only [ratOfDec, String.toList, t1, t2]
  norm_num [n1, n2, n3, n4]

/-- Claim C5 (amended): the price stored for a record is the value of
the first decimal-number token of the block that is immediately
followed by whitespace and a `T` word (scanning the block's lines in
order, leftmost match in each stripped line), not the 5th decimal
token; it is null when no such token exists. -/
theorem C5_first_T_flagged_decimal (items : List (String × PriceRecord))
    (b0 : String) (rest : List String)
    (hc : codeLineMatch (pyStrip b0).toList = true)
    (hl : (items.lookup (normalize_code (pyStrip b0))).isSome = false) :
    (flush_block items (b0 :: rest)).lookup (normalize_code (pyStrip b0)) =
      some { CODE := pyStrip b0, NORM_CODE := normalize_code (pyStrip b0),
             DESCRIPTION := String.intercalate " " (descLines rest),
             PRICE_INCL :=
               ((((b0 :: rest).filterMap
                   (fun l => searchTChars (pyStrip l).toList)).head?).map ratOfDec) } := by
  rw [flush_block_adds items b0 rest hc hl, priceScan_eq_head]

/-- Witness for C5 (amended) at a concrete block. -/
theorem C5_first_T_flagged_decimal_witness :
    codeLineMatch (pyStrip "861390012").toList = true ∧
    (([] : List (String × PriceRecord)).lookup
        (normalize_code (pyStrip "861390012"))).isSome = false ∧
    (flush_block [] ["861390012", "XX", "1.10 T", "2.20"]).lookup
        (normalize_code (pyStrip "861390012")) =
      some { CODE := pyStrip "861390012",
             NORM_CODE := normalize_code (pyStrip "861390012"),
             DESCRIPTION := String.intercalate " " (descLines ["XX", "1.10 T", "2.20"]),
             PRICE_INCL :=
               (((["861390012", "XX", "1.10 T", "2.20"].filterMap
                   (fun l => searchTChars (pyStrip l).toList)).head?).map ratOfDec) } :=
  ⟨by decide, by decide,
    C5_first_T_flagged_decimal [] "861390012" ["XX", "1.10 T", "2.20"]
      (by decide) (by decide)⟩

/-- Counterexample for C6: a block with zero decimal-number tokens
(fewer than 5) still produces a catalog record — it is not skipped. -/
theorem C6_counterexample :
    (specDecTokens ["861390055", "FOO"]).length < 5 ∧
    (extract_prices_from_pdf ["861390055", "FOO"]).lookup "861390055" =
      some { CODE := "861390055", NORM_CODE := "861390055", DESCRIPTION := "FOO",
             PRICE_INCL := none } := by
  refine ⟨by decide, by decide⟩

/-- Claim C6 (amended): a block with fewer than 5 decimal-number tokens
is still retained whenever its code line is valid; when the block has
no `T`-flagged decimal at all, the record is stored with a null
PRICE_INCL (code and description are kept). -/
theorem C6_short_block_kept_null_price (items : List (String × PriceRecord))
    (b0 : String) (rest : List String)
    (hc : codeLineMatch (pyStrip b0).toList = true)
    (hl : (items.lookup (normalize_code (pyStrip b0))).isSome = false)
    (_hfew : (specDecTokens (b0 :: rest)).length < 5)
    (hnoT : priceScan (b0 :: rest) = none) :
    (flush_block items (b0 :: rest)).lookup (normalize_code (pyStrip b0)) =
      some { CODE := pyStrip b0, NORM_CODE := normalize_code (pyStrip b0),
             DESCRIPTION := String.intercalate " " (descLines rest),
             PRICE_INCL := none } := by
  rw [flush_block_adds items b0 rest hc hl, hnoT]

/-- Witness for C6 (amended) at a concrete block with no decimal
tokens. -/
theorem C6_short_block_kept_null_price_witness :
    codeLineMatch (pyStrip "861390055").toList = true ∧
    (([] : List (String × PriceRecord)).lookup
        (normalize_code (pyStrip "861390055"))).isSome = false ∧
    (specDecTokens ["861390055", "FOO"]).length < 5 ∧
    priceScan ["861390055", "FOO"] = none ∧
    (flush_block [] ["861390055", "FOO"]).lookup
        (normalize_code (pyStrip "861390055")) =
      some { CODE := pyStrip "861390055",
             NORM_CODE := normalize_code (pyStrip "861390055"),
             DESCRIPTION := String.intercalate " " (descLines ["FOO"]),
             PRICE_INCL := none } :=
  ⟨by decide, by decide, by decide, by decide,
    C6_short_block_kept_null_price [] "861390055" ["FOO"]
      (by decide) (by decide) (by decide) (by decide)⟩

/-- `flush_block` only ever appends: the previous items are a prefix of
the result. -/
theorem flush_block_grows (items : List (String × PriceRecord))
    (block : List String) : items <+: flush_block items block := by
  cases block with
  | nil => exact List.prefix_rfl
  | cons b0 rest =>
      simp only [flush_block]
      split
      · exact List.prefix_rfl
      · split
        · exact List.prefix_rfl
        · split
          · exact List.prefix_rfl
          · exact List.prefix_append _ _

/-- `flush_block` is a no-op when the block's normalized code is
already present: the first-stored record is kept unchanged. -/
theorem flush_block_noop_of_present (items : List (String × PriceRecord))
    (block : List String)
    (h : (items.lookup (normalize_code (pyStrip (block.headD "")))).isSome = true) :
    flush_block items block = items := by
  cases block with
  | nil => rfl
  | cons b0 rest =>
      simp only [flush_block]
      split
      · rfl
      · split
        · rfl
        · split
          · rfl
          · rename_i h1 h2 h3
            exact absurd (by simpa using h) h3

/-- `flush_block` preserves distinctness of the stored keys. -/
theorem flush_block_keys_nodup (items : List (String × PriceRecord))
    (block : List String) (h : (items.map Prod.fst).Nodup) :
    ((flush_block items block).map Prod.fst).Nodup := by
  cases block with
  | nil => exact h
  | cons b0 rest =>
      simp only [flush_block]
      split
      · exact h
      · split
        · exact h
        · split
          · exact h
          · rename_i h1 h2 h3
            have hnm : normalize_code (pyStrip b0) ∉ items.map Prod.fst := by
              apply lookup_none_not_mem
              cases hx : items.lookup (normalize_code (pyStrip b0)) with
              | none => rfl
              | some v => exact absurd (by simp [hx]) h3
            simp [List.nodup_append, h, hnm]

/-- The scanner loop preserves distinctness of the stored keys. -/
theorem scan_keys_nodup (lines : List String) :
    ∀ st : ScanState, (st.items.map Prod.fst).Nodup →
      (((lines.foldl scanLine st).items).map Prod.fst).Nodup := by
  induction lines with
  | nil => exact fun st h => h
  | cons l ls ih =>
      intro st h
      apply ih
      simp only [scanLine]
      split
      · exact flush_block_keys_nodup _ _ h
      · split
        · exact h
        · exact h

/-- The extractor's catalog has pairwise distinct normalized codes. -/
theorem extract_keys_nodup (lines : List String) :
    ((extract_prices_from_pdf lines).map Prod.fst).Nodup := by
  unfold extract_prices_from_pdf
  exact flush_block_keys_nodup _ _ (scan_keys_nodup lines ⟨[], []⟩ (by simp))

/-- Claim C3: the built catalog holds at most one record per distinct
normalized code; a block whose code is already stored leaves the
catalog unchanged (the first-encountered record wins), and flushing
never disturbs previously stored records (it only appends). -/
theorem C3_dedup_first_wins (lines : List String)
    (items : List (String × PriceRecord)) (block : List String) :
    ((extract_prices_from_pdf lines).map Prod.fst).Nodup ∧
    items <+: flush_block items block ∧
    ((items.lookup (normalize_code (pyStrip (block.headD "")))).isSome = true →
      flush_block items block = items) :=
  ⟨extract_keys_nodup lines, flush_block_grows items block,
   fun h => flush_block_noop_of_present items block h⟩

/-- Witness for C3: a duplicated code in the source keeps the first
record ("A"), and a concrete flush of a duplicate block is a no-op. -/
theorem C3_dedup_first_wins_witness :
    ((extract_prices_from_pdf ["861390001", "A", "861390001", "B"]).map Prod.fst).Nodup ∧
    [("861390001", (⟨"861390001", "861390001", "A", none⟩ : PriceRecord))] <+:
      flush_block [("861390001", (⟨"861390001", "861390001", "A", none⟩ : PriceRecord))]
        ["861390001", "B"] ∧
    flush_block [("861390001", (⟨"861390001", "861390001", "A", none⟩ : PriceRecord))]
        ["861390001", "B"] =
      [("861390001", (⟨"861390001", "861390001", "A", none⟩ : PriceRecord))] ∧
    extract_prices_from_pdf ["861390001", "A", "861390001", "B"] =
      [("861390001", (⟨"861390001", "861390001", "A", none⟩ : PriceRecord))] :=
  ⟨(C3_dedup_first_wins ["861390001", "A", "861390001", "B"]
      [("861390001", (⟨"861390001", "861390001", "A", none⟩ : PriceRecord))]
      ["861390001", "B"]).1,
   (C3_dedup_first_wins ["861390001", "A", "861390001", "B"]
      [("861390001", (⟨"861390001", "861390001", "A", none⟩ : PriceRecord))]
      ["861390001", "B"]).2.1,
   (C3_dedup_first_wins ["861390001", "A", "861390001", "B"]
      [("861390001", (⟨"861390001", "861390001", "A", none⟩ : PriceRecord))]
      ["861390001", "B"]).2.2 (by decide),
   by decide⟩

/-- A decimal digit is not a whitespace character. -/
theorem digit_not_space (c : Char) (h : c.isDigit = true) : isSpaceChar c = false := by
  cases hc : isSpaceChar c with
  | false => rfl
  | true =>
      exfalso
      simp only [isSpaceChar, Bool.or_eq_true, beq_iff_eq] at hc
      rcases hc with ((((rfl | rfl) | rfl) | rfl) | rfl) | rfl <;>
        exact absurd h (by decide)

/-- An ASCII letter is not a whitespace character. -/
theorem letter_not_space (c : Char) (h : isAsciiLetter c = true) :
    isSpaceChar c = false := by
  cases hc : isSpaceChar c with
  | false => rfl
  | true =>
      exfalso
      simp only [isSpaceChar, Bool.or_eq_true, beq_iff_eq] at hc
      rcases hc with ((((rfl | rfl) | rfl) | rfl) | rfl) | rfl <;>
        exact absurd h (by decide)

/-- Stripping a character list without whitespace is the identity. -/
theorem stripChars_of_no_space (l : List Char)
    (h : ∀ c ∈ l, isSpaceChar c = false) : stripChars l = l := by
  unfold stripChars
  have d1 : l.dropWhile isSpaceChar = l := by
    cases l with
    | nil => rfl
    | cons c cs =>
        rw [List.dropWhile_cons]
        simp [h c (by simp)]
  rw [d1]
  have d2 : l.reverse.dropWhile isSpaceChar = l.reverse := by
    cases hr : l.reverse with
    | nil => rfl
    | cons c cs =>
        rw [List.dropWhile_cons]
        have hm : c ∈ l := by
          rw [← List.mem_reverse, hr]
          simp
        simp [h c hm]
  rw [d2, List.reverse_reverse]

/-- A line that starts a block splits into six-or-more digits and an
optional single letter. -/
theorem blockStart_split (l : List Char) (h : blockStartMatch l = true) :
    6 ≤ (l.takeWhile Char.isDigit).length ∧
    (l.drop (l.takeWhile Char.isDigit).length = [] ∨
      ∃ a, l.drop (l.takeWhile Char.isDigit).length = [a] ∧ isAsciiLetter a = true) := by
  simp only [blockStartMatch, Bool.and_eq_true, decide_eq_true_eq, Bool.or_eq_true,
    beq_iff_eq] at h
  refine ⟨h.1, ?_⟩
  rcases h.2 with he | hone
  · exact Or.inl he
  · right
    obtain ⟨a, ha⟩ := List.length_eq_one.mp hone.1
    refine ⟨a, ha, ?_⟩
    rw [ha] at hone
    exact hone.2

/-- Every character of a block-start line is a digit or a letter, hence
not whitespace. -/
theorem blockStart_no_space (l : List Char) (h : blockStartMatch l = true) :
    ∀ c ∈ l, isSpaceChar c = false := by
  intro c hc
  obtain ⟨h6, hrest⟩ := blockStart_split l h
  have hsplit : l = l.takeWhile Char.isDigit ++ l.drop (l.takeWhile Char.isDigit).length := by
    have hpre := List.takeWhile_prefix (p := Char.isDigit) (l := l)
    have htake := List.prefix_iff_eq_take.mp hpre
    conv_lhs => rw [← List.take_append_drop (l.takeWhile Char.isDigit).length l, ← htake]
  rcases List.mem_append.mp (hsplit ▸ hc) with h1 | h2
  · exact digit_not_space c (List.mem_takeWhile_imp h1)
  · rcases hrest with he | ⟨a, ha, hlet⟩
    · rw [he] at h2
      simp at h2
    · rw [ha] at h2
      simp only [List.mem_singleton] at h2
      subst h2
      exact letter_not_space c hlet

/-- Stripping a block-start line is the identity on strings. -/
theorem pyStrip_of_blockStart (s : String) (h : blockStartMatch s.toList = true) :
    pyStrip s = s := by
  cases s with
  | mk data =>
      show String.mk (stripChars data) = String.mk data
      rw [stripChars_of_no_space data (blockStart_no_space data h)]

/-- The digit filtrate of a block-start line keeps at least its six-or-
more leading digits. -/
theorem blockStart_filter_len (l : List Char) (h : blockStartMatch l = true) :
    6 ≤ (l.filter Char.isDigit).length := by
  obtain ⟨h6, _⟩ := blockStart_split l h
  have hsplit : l = l.takeWhile Char.isDigit ++ l.drop (l.takeWhile Char.isDigit).length := by
    have hpre := List.takeWhile_prefix (p := Char.isDigit) (l := l)
    have htake := List.prefix_iff_eq_take.mp hpre
    conv_lhs => rw [← List.take_append_drop (l.takeWhile Char.isDigit).length l, ← htake]
  calc 6 ≤ (l.takeWhile Char.isDigit).length := h6
    _ ≤ (l.takeWhile Char.isDigit).length +
          ((l.drop (l.takeWhile Char.isDigit).length).filter Char.isDigit).length := by omega
    _ = (l.filter Char.isDigit).length := by
          have htw : (l.takeWhile Char.isDigit).filter Char.isDigit =
              l.takeWhile Char.isDigit :=
            List.filter_eq_self.mpr (fun c hc => List.mem_takeWhile_imp hc)
          conv_rhs => rw [hsplit]
          rw [List.filter_append, List.length_append, htw]

/-- The digit filtrate consists of digits. -/
theorem filter_digits_all (l : List Char) :
    (l.filter Char.isDigit).all Char.isDigit = true := by
  rw [List.all_eq_true]
  intro c hc
  exact (List.mem_filter.mp hc).2

/-- `flush_block` preserves the record invariants, provided the block
(if non-empty) starts with a block-start line. -/
theorem flush_block_good (items : List (String × PriceRecord)) (block : List String)
    (hi : ∀ kr ∈ items,
      kr.2.NORM_CODE = normalize_code kr.2.CODE ∧
      kr.2.NORM_CODE.toList.all Char.isDigit = true ∧
      6 ≤ kr.2.NORM_CODE.length ∧ kr.1 = kr.2.NORM_CODE)
    (hb : ∀ b0 ∈ block.head?, blockStartMatch b0.toList = true) :
    ∀ kr ∈ flush_block items block,
      kr.2.NORM_CODE = normalize_code kr.2.CODE ∧
      kr.2.NORM_CODE.toList.all Char.isDigit = true ∧
      6 ≤ kr.2.NORM_CODE.length ∧ kr.1 = kr.2.NORM_CODE := by
  cases block with
  | nil => exact hi
  | cons b0 rest =>
      have hb0 : blockStartMatch b0.toList = true := hb b0 (by simp)
      have hstrip : pyStrip b0 = b0 := pyStrip_of_blockStart b0 hb0
      simp only [flush_block]
      split
      · exact hi
      · split
        · exact hi
        · split
          · exact hi
          · intro kr hkr
            rcases List.mem_append.mp hkr with hin | hnew
            · exact hi kr hin
            · simp only [List.mem_singleton] at hnew
              subst hnew
              refine ⟨rfl, ?_, ?_, rfl⟩
              · exact filter_digits_all (pyStrip b0).toList
              · show 6 ≤ ((pyStrip b0).toList.filter Char.isDigit).length
                rw [hstrip]
                exact blockStart_filter_len b0.toList hb0

/-- One scanner step preserves the record invariants and the invariant
that the open block starts with a block-start line. -/
theorem scanLine_good (st : ScanState) (raw : String)
    (hi : ∀ kr ∈ st.items,
      kr.2.NORM_CODE = normalize_code kr.2.CODE ∧
      kr.2.NORM_CODE.toList.all Char.isDigit = true ∧
      6 ≤ kr.2.NORM_CODE.length ∧ kr.1 = kr.2.NORM_CODE)
    (hc : ∀ b0 ∈ st.current.head?, blockStartMatch b0.toList = true) :
    (∀ kr ∈ (scanLine st raw).items,
      kr.2.NORM_CODE = normalize_code kr.2.CODE ∧
      kr.2.NORM_CODE.toList.all Char.isDigit = true ∧
      6 ≤ kr.2.NORM_CODE.length ∧ kr.1 = kr.2.NORM_CODE) ∧
    (∀ b0 ∈ (scanLine st raw).current.head?, blockStartMatch b0.toList = true) := by
  simp only [scanLine]
  split
  · rename_i hbs
    refine ⟨flush_block_good st.items st.current hi hc, ?_⟩
    intro b0 hb0
    simp only [List.head?, Option.mem_def, Option.some.injEq] at hb0
    subst hb0
    exact hbs
  · split
    · rename_i hne
      refine ⟨hi, ?_⟩
      intro b0 hb0
      cases hcur : st.current with
      | nil => rw [hcur] at hne; simp at hne
      | cons c t =>
          rw [hcur] at hb0
          simp only [List.cons_append, List.head?, Option.mem_def,
            Option.some.injEq] at hb0
          subst hb0
          apply hc
          rw [hcur]
          simp
    · exact ⟨hi, hc⟩

/-- The scanner loop preserves both invariants. -/
theorem scan_good (lines : List String) :
    ∀ st : ScanState,
      (∀ kr ∈ st.items,
        kr.2.NORM_CODE = normalize_code kr.2.CODE ∧
        kr.2.NORM_CODE.toList.all Char.isDigit = true ∧
        6 ≤ kr.2.NORM_CODE.length ∧ kr.1 = kr.2.NORM_CODE) →
      (∀ b0 ∈ st.current.head?, blockStartMatch b0.toList = true) →
      ((∀ kr ∈ (lines.foldl scanLine st).items,
        kr.2.NORM_CODE = normalize_code kr.2.CODE ∧
        kr.2.NORM_CODE.toList.all Char.isDigit = true ∧
        6 ≤ kr.2.NORM_CODE.length ∧ kr.1 = kr.2.NORM_CODE) ∧
       (∀ b0 ∈ (lines.foldl scanLine st).current.head?,
        blockStartMatch b0.toList = true)) := by
  induction lines with
  | nil => exact fun st hi hc => ⟨hi, hc⟩
  | cons l ls ih =>
      intro st hi hc
      have hstep := scanLine_good st l hi hc
      exact ih (scanLine st l) hstep.1 hstep.2

/-- Claim C9: every record retained by the PDF extractor has
`NORM_CODE` equal to the digits of `CODE`, made of digits only, of
length at least 6 (blocks start only at six-or-more-digit code lines),
and is stored under a key equal to its `NORM_CODE`. -/
theorem C9_extractor_invariants (lines : List String) (kr : String × PriceRecord)
    (h : kr ∈ extract_prices_from_pdf lines) :
    kr.2.NORM_CODE = normalize_code kr.2.CODE ∧
    kr.2.NORM_CODE.toList.all Char.isDigit = true ∧
    6 ≤ kr.2.NORM_CODE.length ∧
    kr.1 = kr.2.NORM_CODE := by
  have hs := scan_good lines ⟨[], []⟩ (by simp) (by simp)
  exact flush_block_good _ _ hs.1 hs.2 kr h

/-- Witness for C9 at a concrete document. -/
theorem C9_extractor_invariants_witness :
    ("861390055", (⟨"861390055", "861390055", "FOO", none⟩ : PriceRecord)) ∈
      extract_prices_from_pdf ["861390055", "FOO"] ∧
    ((⟨"861390055", "861390055", "FOO", none⟩ : PriceRecord).NORM_CODE =
        normalize_code (⟨"861390055", "861390055", "FOO", none⟩ : PriceRecord).CODE ∧
      (⟨"861390055", "861390055", "FOO", none⟩ : PriceRecord).NORM_CODE.toList.all
          Char.isDigit = true ∧
      6 ≤ (⟨"861390055", "861390055", "FOO", none⟩ : PriceRecord).NORM_CODE.length ∧
      "861390055" = (⟨"861390055", "861390055", "FOO", none⟩ : PriceRecord).NORM_CODE) :=
  ⟨by decide,
    C9_extractor_invariants ["861390055", "FOO"]
      ("861390055", (⟨"861390055", "861390055", "FOO", none⟩ : PriceRecord))
      (by decide)⟩
